import Mathlib

/-!
Verification of the fingerprint-audit pipeline in `src/main.rs`
(ajour/api-test): fingerprint extraction, package-level batching with
per-batch deduplication, request-body construction for the two
fingerprint services, and aggregation of per-batch outcomes into
match counts.
-/

namespace ApiTest

/-- A module entry of a package file; it carries one content fingerprint.
Fingerprints are `u32` in the source; only equality and hashing are used,
so they are modelled as `Nat`. Mirrors the `modules` items read at
`main.rs` line 45. -/
structure Module where
  fingerprint : Nat
deriving DecidableEq

/-- A file of a package, owning a list of modules (`main.rs` line 45). -/
structure File where
  modules : List Module
deriving DecidableEq

/-- A catalog package, owning its latest files (`main.rs` lines 43-44). -/
structure Package where
  latest_files : List File
deriving DecidableEq

/-- `BATCH_SIZE` from `main.rs` line 14. -/
def BATCH_SIZE : Nat := 25

/-- The fingerprints of one package in nested traversal order: files in
file order, modules in module order (the closure body of
`main.rs` lines 42-48). -/
def packageModuleFingerprints (p : Package) : List Nat :=
  (p.latest_files.map (fun f => f.modules.map Module.fingerprint)).flatten

/-- `package_fingerprints` from `main.rs` lines 40-49: one fingerprint
list per package, preserving package order, no deduplication. -/
def package_fingerprints (packages : List Package) : List (List Nat) :=
  packages.map packageModuleFingerprints

/-- Structural worker for `chunks`; the fuel argument only provides a
structurally decreasing measure and is irrelevant once it is at least the
list length (see `chunksAux_eq_chunks`). -/
def chunksAux (fuel n : Nat) (l : List α) : List (List α) :=
  match fuel, l with
  | _, [] => []
  | 0, _ :: _ => []
  | f + 1, x :: xs => (x :: xs).take n :: chunksAux f n ((x :: xs).drop n)

/-- Rust's `slice::chunks(n)`: splits a list into consecutive chunks of
`n` elements, the last chunk possibly shorter. `chunks(0)` panics in
Rust; the model's value at `n = 0` is irrelevant and every claim assumes
`1 ≤ n`. -/
def chunks (n : Nat) (l : List α) : List (List α) :=
  chunksAux l.length n l

/-- `batches` from `main.rs` lines 51-54: chunk the per-package
fingerprint lists `BATCH_SIZE` packages at a time, then flatten each
chunk and collect it into a `HashSet` (modelled as `Finset Nat`).
The chunk size is a parameter `n`; the program uses `BATCH_SIZE`. -/
def batches (package_fps : List (List Nat)) (n : Nat) : List (Finset Nat) :=
  (chunks n package_fps).map (fun batch => batch.flatten.toFinset)

/-- `ApiChoice` from `main.rs` lines 159-162. -/
inductive ApiChoice where
  | Curse
  | WowUp
deriving DecidableEq

/-- `CURSE_FINGERPRINT_URL` from `main.rs` line 12. -/
def CURSE_FINGERPRINT_URL : String := "https://addons-ecs.forgesvc.net/api/v2/fingerprint"

/-- `WOWUP_FINGERPRINT_URL` from `main.rs` line 13. -/
def WOWUP_FINGERPRINT_URL : String := "https://hub.wowup.io/curseforge/addons/fingerprint"

/-- `ApiChoice::fingerprint_url` from `main.rs` lines 164-171. -/
def ApiChoice.fingerprint_url : ApiChoice → String
  | .Curse => CURSE_FINGERPRINT_URL
  | .WowUp => WOWUP_FINGERPRINT_URL

/-- `WowUpFingerprintRequest` from `main.rs` lines 196-199. -/
structure WowUpFingerprintRequest where
  fingerprints : List Nat
deriving DecidableEq

/-- A minimal JSON value model: the request bodies built at
`main.rs` lines 127-130 only involve numbers, arrays and objects. -/
inductive Json where
  | num (n : Nat)
  | arr (elems : List Json)
  | obj (fields : List (String × Json))

/-- serde serialization of a `Vec<u32>`: a bare JSON array of numbers. -/
def jsonOfFingerprints (fps : List Nat) : Json :=
  Json.arr (fps.map Json.num)

/-- serde serialization of `WowUpFingerprintRequest` (derive `Serialize`
on the struct of `main.rs` lines 196-199): an object with the single
field `fingerprints`. -/
def jsonOfWowUpRequest (r : WowUpFingerprintRequest) : Json :=
  Json.obj [("fingerprints", jsonOfFingerprints r.fingerprints)]

/-- The request body built by `get_fingerprint_respose`
(`main.rs` lines 127-130), per service choice. -/
def requestBody (api_choice : ApiChoice) (fingerprints : List Nat) : Json :=
  match api_choice with
  | .Curse => jsonOfFingerprints fingerprints
  | .WowUp => jsonOfWowUpRequest ⟨fingerprints⟩

mutual

/-- Compact JSON text rendering, mirroring `serde_json::to_vec`. -/
def jsonSerialize : Json → String
  | .num n => toString n
  | .arr elems => "[" ++ serializeArr elems ++ "]"
  | .obj fields => "\x7b" ++ serializeObj fields ++ "\x7d"

/-- Comma-separated rendering of array elements. -/
def serializeArr : List Json → String
  | [] => ""
  | [x] => jsonSerialize x
  | x :: y :: xs => jsonSerialize x ++ "," ++ serializeArr (y :: xs)

/-- Comma-separated rendering of object fields. -/
def serializeObj : List (String × Json) → String
  | [] => ""
  | [kv] => "\"" ++ kv.1 ++ "\":" ++ jsonSerialize kv.2
  | kv :: kv2 :: kvs => "\"" ++ kv.1 ++ "\":" ++ jsonSerialize kv.2 ++ "," ++ serializeObj (kv2 :: kvs)

end

/-- The fingerprint sequence actually sent for a batch: the `HashSet` is
iterated and collected to a `Vec` (`main.rs` line 125); iteration order
is arbitrary, modelled as the sorted enumeration of the set. -/
def batchToList (b : Finset Nat) : List Nat :=
  b.sort (· ≤ ·)

/-- The per-service fan-out of `main.rs` lines 56-66: one request body
per batch, in batch order. -/
def serviceRequests (api_choice : ApiChoice) (bs : List (Finset Nat)) : List Json :=
  bs.map (fun b => requestBody api_choice (batchToList b))

/-- An exact-match record of a fingerprint response; only its package
identifier `id` is consumed (`main.rs` lines 89, 94, 98). -/
structure ExactMatch where
  id : Nat
deriving DecidableEq

/-- `curse::FingerprintInfo` as consumed by `main.rs`: the decoded
response of one batch request, carrying the exact-match records. -/
structure FingerprintInfo where
  exact_matches : List ExactMatch
deriving DecidableEq

/-- The aggregation of one service's per-batch outcomes
(`main.rs` lines 70-84): failed outcomes are dropped by
`filter_map(Result::ok)`, the surviving responses' `exact_matches` are
flattened into one list. -/
def collectExactMatches (outcomes : List (Except String FingerprintInfo)) : List ExactMatch :=
  ((outcomes.filterMap Except.toOption).map FingerprintInfo.exact_matches).flatten

/-- The distinct package identifiers of a match list
(`main.rs` lines 92-99). -/
def packageIds (ms : List ExactMatch) : Finset Nat :=
  (ms.map ExactMatch.id).toFinset

/-- `unique_package_ids` from `main.rs` lines 86-90: distinct package
identifiers across both services' match lists. -/
def unique_package_ids (curse_exact_matches wowup_exact_matches : List ExactMatch) : Finset Nat :=
  ((curse_exact_matches ++ wowup_exact_matches).map ExactMatch.id).toFinset

/-- The five counts printed by `main.rs` lines 101-115. -/
structure Report where
  uniquePackages : Nat
  cursePackages : Nat
  curseMatches : Nat
  wowupPackages : Nat
  wowupMatches : Nat
deriving DecidableEq

/-- The whole aggregation stage (`main.rs` lines 70-115) as a function of
the two services' per-batch outcomes. -/
def report (curseOutcomes wowupOutcomes : List (Except String FingerprintInfo)) : Report :=
  let curse_exact_matches := collectExactMatches curseOutcomes
  let wowup_exact_matches := collectExactMatches wowupOutcomes
  ⟨(unique_package_ids curse_exact_matches wowup_exact_matches).card,
   (packageIds curse_exact_matches).card,
   curse_exact_matches.length,
   (packageIds wowup_exact_matches).card,
   wowup_exact_matches.length⟩

/-- The union of a batch list's fingerprint sets. -/
def unionBatches (bs : List (Finset Nat)) : Finset Nat :=
  bs.foldr (· ∪ ·) ∅

/-! ### Basic properties of `chunks` -/

/-- For a chunk width of at least one, the fuel is irrelevant as soon as
it covers the list length. -/
theorem chunksAux_eq_chunks (n : Nat) (hn : 1 ≤ n) (f : Nat) (l : List α)
    (hl : l.length ≤ f) : chunksAux f n l = chunks n l := by
  induction f using Nat.strong_induction_on generalizing l with
  | _ f ih =>
    match f, l with
    | 0, [] => rfl
    | f + 1, [] => rfl
    | 0, x :: xs => simp at hl
    | f + 1, x :: xs =>
      have hl' : xs.length + 1 ≤ f + 1 := by simpa using hl
      have hd : ((x :: xs).drop n).length ≤ f := by
        simp only [List.length_drop, List.length_cons]; omega
      have hd' : ((x :: xs).drop n).length ≤ xs.length := by
        simp only [List.length_drop, List.length_cons]; omega
      show (x :: xs).take n :: chunksAux f n ((x :: xs).drop n) = chunks n (x :: xs)
      rw [ih f (by omega) _ hd]
      show _ = (x :: xs).take n :: chunksAux xs.length n ((x :: xs).drop n)
      rw [ih xs.length (by omega) _ hd']

theorem chunks_nil (n : Nat) : chunks n ([] : List α) = [] := rfl

theorem chunks_cons (n : Nat) (hn : 1 ≤ n) (x : α) (xs : List α) :
    chunks n (x :: xs) = (x :: xs).take n :: chunks n ((x :: xs).drop n) := by
  show (x :: xs).take n :: chunksAux xs.length n ((x :: xs).drop n) = _
  rw [chunksAux_eq_chunks n hn xs.length _ (by
    simp only [List.length_drop, List.length_cons]; omega)]

/-- Flattening the chunks recovers the original list: no element is
dropped or duplicated by chunking. -/
theorem chunks_flatten (n : Nat) (hn : 1 ≤ n) (l : List α) :
    (chunks n l).flatten = l := by
  match l with
  | [] => rw [chunks_nil]; rfl
  | x :: xs =>
    rw [chunks_cons n hn x xs, List.flatten_cons,
      chunks_flatten n hn ((x :: xs).drop n), List.take_append_drop]
termination_by l.length
decreasing_by simp only [List.length_drop, List.length_cons]; omega

/-- The number of chunks is the length divided by `n`, rounded up. -/
theorem chunks_length (n : Nat) (hn : 1 ≤ n) (l : List α) :
    (chunks n l).length = (l.length + n - 1) / n := by
  match l with
  | [] =>
    rw [chunks_nil]
    have h0 : n - 1 < n := by omega
    simp [Nat.div_eq_of_lt h0]
  | x :: xs =>
    rw [chunks_cons n hn x xs, List.length_cons,
      chunks_length n hn ((x :: xs).drop n), List.length_drop]
    have h1 : (x :: xs).length + n - 1 = ((x :: xs).length - 1) + n := by
      simp only [List.length_cons]; omega
    rw [h1, Nat.add_div_right _ (by omega : 0 < n)]
    by_cases hc : n ≤ (x :: xs).length
    · have h2 : (x :: xs).length - n + n - 1 = (x :: xs).length - 1 := by omega
      rw [h2]
    · have h2 : (x :: xs).length - n = 0 := by omega
      rw [h2]
      have h3 : (0 : Nat) + n - 1 < n := by omega
      have h4 : (x :: xs).length - 1 < n := by
        simp only [List.length_cons] at hc ⊢; omega
      rw [Nat.div_eq_of_lt h3, Nat.div_eq_of_lt h4]
termination_by l.length
decreasing_by simp only [List.length_drop, List.length_cons]; omega

/-- The `j`-th chunk is the `n`-window of the list starting at `n * j`. -/
theorem chunks_getElem (n : Nat) (hn : 1 ≤ n) (l : List α) (j : Nat)
    (hj : j < (chunks n l).length) :
    (chunks n l)[j] = (l.drop (n * j)).take n := by
  match l with
  | [] => rw [chunks_nil] at hj; simp at hj
  | x :: xs =>
    match j with
    | 0 =>
      simp only [chunks_cons n hn x xs, List.getElem_cons_zero, Nat.mul_zero,
        List.drop_zero]
    | j + 1 =>
      have hj' : j < (chunks n ((x :: xs).drop n)).length := by
        rw [chunks_cons n hn x xs, List.length_cons] at hj; omega
      simp only [chunks_cons n hn x xs, List.getElem_cons_succ]
      rw [chunks_getElem n hn ((x :: xs).drop n) j hj', List.drop_drop,
        Nat.mul_succ, Nat.add_comm]
termination_by l.length
decreasing_by simp only [List.length_drop, List.length_cons]; omega

/-- Every chunk holds at most `n` elements. -/
theorem chunks_le_length (n : Nat) (hn : 1 ≤ n) (l : List α) (c : List α)
    (hc : c ∈ chunks n l) : c.length ≤ n := by
  match l with
  | [] => rw [chunks_nil] at hc; simp at hc
  | x :: xs =>
    rw [chunks_cons n hn x xs] at hc
    rcases List.mem_cons.mp hc with h | h
    · subst h
      simp only [List.length_take]
      omega
    · exact chunks_le_length n hn ((x :: xs).drop n) c h
termination_by l.length
decreasing_by simp only [List.length_drop, List.length_cons]; omega

/-- Every chunk except possibly the last holds exactly `n` elements. -/
theorem chunks_getElem_length (n : Nat) (hn : 1 ≤ n) (l : List α) (j : Nat)
    (hj : j < (chunks n l).length) (hlast : j + 1 < (chunks n l).length) :
    ((chunks n l)[j]).length = n := by
  match l with
  | [] => rw [chunks_nil] at hj; simp at hj
  | x :: xs =>
    match j with
    | 0 =>
      have hne : (x :: xs).drop n ≠ [] := by
        intro hdrop
        rw [chunks_cons n hn x xs, List.length_cons, hdrop, chunks_nil] at hlast
        simp at hlast
      have hlen : n < (x :: xs).length := by
        have := List.length_pos.mpr hne
        simp only [List.length_drop] at this
        omega
      simp only [chunks_cons n hn x xs, List.getElem_cons_zero, List.length_take]
      omega
    | j + 1 =>
      have hj' : j < (chunks n ((x :: xs).drop n)).length := by
        rw [chunks_cons n hn x xs, List.length_cons] at hj; omega
      have hlast' : j + 1 < (chunks n ((x :: xs).drop n)).length := by
        rw [chunks_cons n hn x xs, List.length_cons] at hlast; omega
      simp only [chunks_cons n hn x xs, List.getElem_cons_succ]
      exact chunks_getElem_length n hn ((x :: xs).drop n) j hj' hlast'
termination_by l.length
decreasing_by
  all_goals simp only [List.length_drop, List.length_cons]; omega

/-! ### Union of batches -/

theorem flatten_map_flatten (L : List (List (List Nat))) :
    (L.map List.flatten).flatten = L.flatten.flatten := by
  induction L with
  | nil => rfl
  | cons a L ih =>
    simp only [List.map_cons, List.flatten_cons, List.flatten_append, ih]

theorem unionBatches_map_toFinset (cs : List (List Nat)) :
    unionBatches (cs.map List.toFinset) = cs.flatten.toFinset := by
  induction cs with
  | nil => rfl
  | cons c cs ih =>
    show c.toFinset ∪ unionBatches (cs.map List.toFinset) = (c ++ cs.flatten).toFinset
    rw [ih, List.toFinset_append]

theorem batches_eq_map_toFinset (pf : List (List Nat)) (n : Nat) :
    batches pf n = ((chunks n pf).map List.flatten).map List.toFinset := by
  rw [batches, List.map_map]
  rfl

/-- C1: for every list of per-package fingerprint lists and every chunk
width `n ≥ 1` (the program uses `BATCH_SIZE = 25`), the union over all
batches produced by the batcher of their fingerprint sets equals the set
of all fingerprints occurring in the input — no fingerprint is dropped —
and each individual batch, being a set, contains no duplicates. -/
theorem batches_union_complete (pf : List (List Nat)) (n : Nat) (hn : 1 ≤ n) :
    unionBatches (batches pf n) = pf.flatten.toFinset ∧
    ∀ b ∈ batches pf n, b.val.Nodup := by
  constructor
  · rw [batches_eq_map_toFinset, unionBatches_map_toFinset, flatten_map_flatten,
      chunks_flatten n hn]
  · intro b _
    exact b.nodup

/-- Witness: `batches_union_complete` applied at a concrete input. -/
theorem batches_union_complete_witness :
    unionBatches (batches [[1, 2], [2, 3]] BATCH_SIZE) =
      ([[1, 2], [2, 3]] : List (List Nat)).flatten.toFinset ∧
    ∀ b ∈ batches [[1, 2], [2, 3]] BATCH_SIZE, b.val.Nodup :=
  batches_union_complete [[1, 2], [2, 3]] BATCH_SIZE (by decide)

/-- C3: the batcher partitions the ordered per-package fingerprint lists
into chunks of `n` packages — not fingerprints — (every chunk except
possibly the last has exactly `n` packages and the last has at most `n`),
then flattens and deduplicates each chunk into one batch, so
deduplication happens per chunk after chunking, not globally: the
fingerprints of the package at index `i` always land in the batch at
index `i / n`, whatever the other chunks hold. -/
theorem batches_chunking (pf : List (List Nat)) (n : Nat) (hn : 1 ≤ n) :
    batches pf n = (chunks n pf).map (fun c => c.flatten.toFinset) ∧
    (chunks n pf).flatten = pf ∧
    (∀ c ∈ chunks n pf, c.length ≤ n) ∧
    (∀ j (hj : j < (chunks n pf).length), j + 1 < (chunks n pf).length →
      ((chunks n pf)[j]).length = n) ∧
    (∀ i (hi : i < pf.length), ∀ f ∈ pf[i],
      ∃ hj : i / n < (batches pf n).length, f ∈ (batches pf n)[i / n]) := by
  refine ⟨rfl, chunks_flatten n hn pf, fun c hc => chunks_le_length n hn pf c hc,
    fun j hj hlast => chunks_getElem_length n hn pf j hj hlast, ?_⟩
  intro i hi f hf
  have hdiv : i / n < (chunks n pf).length := by
    rw [chunks_length n hn pf]
    have h1 : pf.length + n - 1 = (pf.length - 1) + n := by omega
    rw [h1, Nat.add_div_right _ (by omega : 0 < n)]
    have h2 : i / n ≤ (pf.length - 1) / n := Nat.div_le_div_right (by omega)
    omega
  have hj : i / n < (batches pf n).length := by
    rw [batches, List.length_map]; exact hdiv
  refine ⟨hj, ?_⟩
  have hbe : (batches pf n)[i / n] = ((chunks n pf)[i / n]).flatten.toFinset :=
    List.getElem_map _
  rw [hbe, List.mem_toFinset, List.mem_flatten]
  refine ⟨pf[i], ?_, hf⟩
  rw [chunks_getElem n hn pf (i / n) hdiv]
  have hmod : i % n < n := Nat.mod_lt _ (by omega)
  have hidx : n * (i / n) + i % n = i := Nat.div_add_mod i n
  have hb1 : i % n < ((pf.drop (n * (i / n))).take n).length := by
    rw [List.length_take, List.length_drop]
    exact lt_min hmod (by omega)
  have hgo : ((pf.drop (n * (i / n))).take n)[i % n] = pf[i] := by
    rw [List.getElem_take, List.getElem_drop]
    simp only [hidx]
  exact hgo ▸ List.getElem_mem hb1

/-- Witness: `batches_chunking` applied at a concrete input that places
the shared fingerprint `1` of two packages into two different chunks. -/
theorem batches_chunking_witness :
    (chunks 1 [[1], [1], [2]]).flatten = [[1], [1], [2]] :=
  (batches_chunking [[1], [1], [2]] 1 (by decide)).2.1

/-- C4 counterexample: one package carrying 26 distinct fingerprints
yields a single batch of 26 fingerprints, exceeding `BATCH_SIZE = 25`:
the constant bounds the packages per chunk, not the fingerprints per
batch. -/
theorem batch_card_exceeds_batch_size :
    ¬ ∀ b ∈ batches [List.range 26] BATCH_SIZE, b.card ≤ BATCH_SIZE := by
  decide

/-- C4 amended: every batch is built from a chunk of at most
`BATCH_SIZE` packages (only the last chunk possibly smaller), and its
fingerprint-set size is bounded by the total number of fingerprints in
that chunk's packages — not by `BATCH_SIZE` itself. -/
theorem batch_card_bound (pf : List (List Nat)) (n : Nat) (hn : 1 ≤ n) (j : Nat)
    (hj : j < (chunks n pf).length) (hj' : j < (batches pf n).length) :
    ((chunks n pf)[j]).length ≤ n ∧
    ((batches pf n)[j]).card ≤ ((chunks n pf)[j]).flatten.length := by
  constructor
  · exact chunks_le_length n hn pf _ (List.getElem_mem hj)
  · have hbe : (batches pf n)[j] = ((chunks n pf)[j]).flatten.toFinset :=
      List.getElem_map _
    rw [hbe]
    exact List.toFinset_card_le _

/-- Witness: `batch_card_bound` at a concrete input. -/
theorem batch_card_bound_witness :
    ((chunks BATCH_SIZE [[1, 1, 2]]).get ⟨0, by decide⟩).length ≤ BATCH_SIZE ∧
    ((batches [[1, 1, 2]] BATCH_SIZE).get ⟨0, by decide⟩).card ≤
      ((chunks BATCH_SIZE [[1, 1, 2]]).get ⟨0, by decide⟩).flatten.length :=
  batch_card_bound [[1, 1, 2]] BATCH_SIZE (by decide) 0 (by decide) (by decide)

/-- C8: running the extractor followed by the batcher twice on the same
catalog with the same chunk width produces the same number of batches,
with identical fingerprint-set contents batch for batch (the model's
`Finset` equality is exactly set-content equality, so iteration order is
immaterial). -/
theorem pipeline_idempotent (packages1 packages2 : List Package) (n : Nat)
    (h : packages1 = packages2) :
    (batches (package_fingerprints packages1) n).length =
      (batches (package_fingerprints packages2) n).length ∧
    ∀ j (hj1 : j < (batches (package_fingerprints packages1) n).length)
      (hj2 : j < (batches (package_fingerprints packages2) n).length),
      (batches (package_fingerprints packages1) n).get ⟨j, hj1⟩ =
        (batches (package_fingerprints packages2) n).get ⟨j, hj2⟩ := by
  subst h
  exact ⟨rfl, fun j hj1 hj2 => rfl⟩

/-- Witness: `pipeline_idempotent` at a concrete one-package catalog. -/
theorem pipeline_idempotent_witness :
    (batches (package_fingerprints [⟨[⟨[⟨1⟩, ⟨2⟩]⟩]⟩]) BATCH_SIZE).length =
      (batches (package_fingerprints [⟨[⟨[⟨1⟩, ⟨2⟩]⟩]⟩]) BATCH_SIZE).length :=
  (pipeline_idempotent [⟨[⟨[⟨1⟩, ⟨2⟩]⟩]⟩] [⟨[⟨[⟨1⟩, ⟨2⟩]⟩]⟩] BATCH_SIZE rfl).1

/-- C10: a package with an empty fingerprint list still occupies one
package slot in chunking — the batch count is the package count divided
by `n` rounded up, independent of the lists' contents — a chunk
consisting only of fingerprint-less packages yields the empty-set batch,
one request per batch is still issued to each service (an empty batch's
body encodes the empty fingerprint sequence), and an empty catalog
yields zero batches and zero requests. -/
theorem empty_packages_batching (pf : List (List Nat)) (n : Nat) (hn : 1 ≤ n)
    (api_choice : ApiChoice) :
    (batches pf n).length = (pf.length + n - 1) / n ∧
    (∀ j (hj : j < (chunks n pf).length) (hj' : j < (batches pf n).length),
      (∀ l ∈ (chunks n pf)[j], l = []) → (batches pf n)[j] = ∅) ∧
    (serviceRequests api_choice (batches pf n)).length = (batches pf n).length ∧
    requestBody api_choice (batchToList ∅) = requestBody api_choice [] ∧
    batches [] n = [] ∧
    serviceRequests api_choice (batches ([] : List (List Nat)) n) = [] := by
  refine ⟨?_, ?_, ?_, ?_, rfl, rfl⟩
  · rw [batches, List.length_map, chunks_length n hn]
  · intro j hj hj' hall
    have hbe : (batches pf n)[j] = ((chunks n pf)[j]).flatten.toFinset :=
      List.getElem_map _
    rw [hbe, List.flatten_eq_nil_iff.mpr hall]
    rfl
  · rw [serviceRequests, List.length_map]
  · have hempty : batchToList (∅ : Finset Nat) = [] := Finset.sort_empty _
    rw [hempty]

/-- Witness: `empty_packages_batching` at a catalog of two
fingerprint-less packages. -/
theorem empty_packages_batching_witness :
    (batches [[], []] BATCH_SIZE).length =
      (([[], []] : List (List Nat)).length + BATCH_SIZE - 1) / BATCH_SIZE :=
  (empty_packages_batching [[], []] BATCH_SIZE (by decide) ApiChoice.Curse).1

/-! ### Aggregation -/

theorem collectExactMatches_append (a b : List (Except String FingerprintInfo)) :
    collectExactMatches (a ++ b) = collectExactMatches a ++ collectExactMatches b := by
  rw [collectExactMatches, collectExactMatches, collectExactMatches,
    List.filterMap_append, List.map_append, List.flatten_append]

/-- C5: for every collection of per-batch outcomes of one service, the
raw count of exact-match records collected from the successful outcomes
is at least the number of distinct package identifiers among them. -/
theorem match_total_ge_distinct (outcomes : List (Except String FingerprintInfo)) :
    (packageIds (collectExactMatches outcomes)).card ≤
      (collectExactMatches outcomes).length := by
  calc (packageIds (collectExactMatches outcomes)).card
      ≤ ((collectExactMatches outcomes).map ExactMatch.id).length :=
        List.toFinset_card_le _
    _ = (collectExactMatches outcomes).length := List.length_map _ _

/-- C6: for every collection of per-batch outcomes of the two services,
the number of distinct package identifiers across both services'
exact matches is at most the sum of the two per-service distinct
counts. -/
theorem unique_le_sum_counts
    (curseOutcomes wowupOutcomes : List (Except String FingerprintInfo)) :
    (unique_package_ids (collectExactMatches curseOutcomes)
        (collectExactMatches wowupOutcomes)).card ≤
      (packageIds (collectExactMatches curseOutcomes)).card +
        (packageIds (collectExactMatches wowupOutcomes)).card := by
  have h : unique_package_ids (collectExactMatches curseOutcomes)
        (collectExactMatches wowupOutcomes) =
      packageIds (collectExactMatches curseOutcomes) ∪
        packageIds (collectExactMatches wowupOutcomes) := by
    rw [unique_package_ids, packageIds, packageIds, List.map_append,
      List.toFinset_append]
  rw [h]
  exact Finset.card_union_le _ _

/-- C2: if exactly one (service, batch) outcome fails while every other
outcome of either service succeeds, the failing pair contributes an
empty result, and the whole report — in particular the other service's
counts — is identical to that of a run in which the failing pair
succeeded with an empty match list. Stated for a failure in either
service's outcome list. -/
theorem failure_isolation (pre post otherOutcomes : List (Except String FingerprintInfo))
    (e : String)
    (_hok : ∀ o ∈ pre ++ post, o.isOk = true)
    (_hok2 : ∀ o ∈ otherOutcomes, o.isOk = true) :
    collectExactMatches [Except.error e] = [] ∧
    report (pre ++ [Except.error e] ++ post) otherOutcomes =
      report (pre ++ [Except.ok ⟨[]⟩] ++ post) otherOutcomes ∧
    report otherOutcomes (pre ++ [Except.error e] ++ post) =
      report otherOutcomes (pre ++ [Except.ok ⟨[]⟩] ++ post) := by
  have h1 : collectExactMatches [Except.error e] = [] := rfl
  have h2 : collectExactMatches [Except.ok (⟨[]⟩ : FingerprintInfo)] = [] := rfl
  have hkey : collectExactMatches (pre ++ [Except.error e] ++ post) =
      collectExactMatches (pre ++ [Except.ok (⟨[]⟩ : FingerprintInfo)] ++ post) := by
    rw [collectExactMatches_append, collectExactMatches_append,
      collectExactMatches_append, collectExactMatches_append, h1, h2]
  exact ⟨h1, by rw [report, report, hkey], by rw [report, report, hkey]⟩

/-- Witness: `failure_isolation` with one failing outcome next to one
successful outcome carrying a match for package `7`. -/
theorem failure_isolation_witness :
    collectExactMatches [Except.error "transport error"] = [] ∧
    report ([Except.ok ⟨[⟨7⟩]⟩] ++ [Except.error "transport error"] ++ [])
        [Except.ok ⟨[]⟩] =
      report ([Except.ok ⟨[⟨7⟩]⟩] ++ [Except.ok ⟨[]⟩] ++ []) [Except.ok ⟨[]⟩] ∧
    report [Except.ok ⟨[]⟩]
        ([Except.ok ⟨[⟨7⟩]⟩] ++ [Except.error "transport error"] ++ []) =
      report [Except.ok ⟨[]⟩] ([Except.ok ⟨[⟨7⟩]⟩] ++ [Except.ok ⟨[]⟩] ++ []) :=
  failure_isolation [Except.ok ⟨[⟨7⟩]⟩] [] [Except.ok ⟨[]⟩] "transport error"
    (by decide) (by decide)

/-! ### Extractor -/

/-- C7: the extractor yields one fingerprint list per package, in
package order (the i-th output is exactly the i-th package's nested
traversal: files in file order, modules in module order), performs no
deduplication (the output length is the total module count, with
multiplicity), and never fails: a package with no files yields `[]`, and
so does a package whose files all carry no modules. -/
theorem package_fingerprints_spec (packages : List Package) :
    (package_fingerprints packages).length = packages.length ∧
    (∀ i (hi : i < packages.length) (hi' : i < (package_fingerprints packages).length),
      (package_fingerprints packages)[i] =
        ((packages[i]).latest_files.map (fun f => f.modules.map Module.fingerprint)).flatten) ∧
    (∀ p : Package, (packageModuleFingerprints p).length =
      (p.latest_files.map (fun f => f.modules.length)).sum) ∧
    packageModuleFingerprints ⟨[]⟩ = [] ∧
    (∀ p : Package, (∀ f ∈ p.latest_files, f.modules = []) →
      packageModuleFingerprints p = []) := by
  refine ⟨List.length_map _ _, ?_, ?_, rfl, ?_⟩
  · intro i hi hi'
    exact List.getElem_map _
  · intro p
    rw [packageModuleFingerprints, List.length_flatten, List.map_map]
    congr 1
    apply List.map_congr_left
    intro f _
    exact List.length_map _ _
  · intro p hall
    rw [packageModuleFingerprints, List.flatten_eq_nil_iff]
    intro l hl
    rw [List.mem_map] at hl
    obtain ⟨f, hf, rfl⟩ := hl
    rw [hall f hf]
    rfl

/-- Witness: `package_fingerprints_spec` on a two-package catalog with a
duplicated fingerprint inside the first package. -/
theorem package_fingerprints_spec_witness :
    (package_fingerprints [⟨[⟨[⟨1⟩, ⟨1⟩]⟩]⟩, ⟨[]⟩]).length =
      ([⟨[⟨[⟨1⟩, ⟨1⟩]⟩]⟩, ⟨[]⟩] : List Package).length :=
  (package_fingerprints_spec [⟨[⟨[⟨1⟩, ⟨1⟩]⟩]⟩, ⟨[]⟩]).1

/-! ### Request bodies -/

/-- C9: the request body for a batch depends on the service choice: the
Curse service receives a bare JSON array of the unsigned fingerprints,
the WowUp service receives a JSON object wrapping the same fingerprint
sequence under the single field `fingerprints`; on the wire the WowUp
body is exactly the Curse body wrapped in that object, as the concrete
serializations illustrate. -/
theorem request_body_shapes (fps : List Nat) :
    requestBody ApiChoice.Curse fps = Json.arr (fps.map Json.num) ∧
    requestBody ApiChoice.WowUp fps =
      Json.obj [("fingerprints", Json.arr (fps.map Json.num))] ∧
    jsonSerialize (requestBody ApiChoice.WowUp fps) =
      "\x7b" ++ "\"fingerprints\":" ++
        jsonSerialize (requestBody ApiChoice.Curse fps) ++ "\x7d" ∧
    jsonSerialize (requestBody ApiChoice.Curse [3, 5]) = "[3,5]" ∧
    jsonSerialize (requestBody ApiChoice.WowUp [3, 5]) =
      "\x7b\"fingerprints\":[3,5]\x7d" := by
  refine ⟨rfl, rfl, ?_, by decide, by decide⟩
  simp only [requestBody, jsonOfWowUpRequest, jsonOfFingerprints, jsonSerialize,
    serializeObj]
  rw [← String.append_assoc]
  congr 1

/-- Witness: `request_body_shapes` at a concrete fingerprint list. -/
theorem request_body_shapes_witness :
    requestBody ApiChoice.Curse [3, 5] = Json.arr ([3, 5].map Json.num) :=
  (request_body_shapes [3, 5]).1

end ApiTest
